import Mathlib

/-!
# gcploghandler: severity mapping, attribute rewriting and trace enrichment

A shallow embedding of `go/slog/gcploghandler` (`severity.go`, `handler.go`) together
with the parts of `log/slog`, `time` and `go.opentelemetry.io/otel/trace` that the
handler calls.  Go's `int` levels are embedded as `Int`: no operation on a level in
this package can overflow (the only arithmetic is the subtraction of one of the
constants -4, 0, 4, 8 from a level on the same side of it), so every statement proved
for all of `Int` holds in particular on the 64-bit range.
-/

namespace gcploghandler

/-! ## `log/slog` levels -/

/-- Modelled from the spec: `slog.LevelDebug` of the Go standard library (not under src/),
the numeric value the spec's severity table binds to DEBUG. -/
def slog.LevelDebug : Int := -4

/-- Modelled from the spec: `slog.LevelInfo` of the Go standard library (not under src/). -/
def slog.LevelInfo : Int := 0

/-- Modelled from the spec: `slog.LevelWarn` of the Go standard library (not under src/). -/
def slog.LevelWarn : Int := 4

/-- Modelled from the spec: `slog.LevelError` of the Go standard library (not under src/). -/
def slog.LevelError : Int := 8

/-- Modelled from the spec: the verb `%+d` of `fmt.Sprintf` (Go standard library, not under
src/) on an integer: an explicit sign followed by the decimal digits of the magnitude,
as in the spec's example "WARN+3". -/
def fmtPlusD (v : Int) : String :=
  (if v < 0 then "-" else "+") ++ Nat.repr v.natAbs

/-- Modelled from the spec: the local helper `str` of `slog.Level.String` (Go standard
library, not under src/): the bare base name at offset zero, otherwise the base name
followed by the signed offset. -/
def slog.Level.str (base : String) (val : Int) : String :=
  if val = 0 then base else base ++ fmtPlusD val

/-- Modelled from the spec: `slog.Level.String` of the Go standard library (not under
src/), the "generic default-level naming scheme (e.g., INFO, WARN+3)" the severity
mapper falls back to: the name of the nearest standard level at or below the level
(DEBUG below INFO), followed by the signed offset from it. -/
def slog.Level.String (l : Int) : String :=
  if l < slog.LevelInfo then slog.Level.str "DEBUG" (l - slog.LevelDebug)
  else if l < slog.LevelWarn then slog.Level.str "INFO" (l - slog.LevelInfo)
  else if l < slog.LevelError then slog.Level.str "WARN" (l - slog.LevelWarn)
  else slog.Level.str "ERROR" (l - slog.LevelError)

/-! ## severity.go -/

/-- Source: `type LogSeverity int`. -/
abbrev LogSeverity := Int

/-- Source: `LevelDefault = LogSeverity(-8)`. -/
def LevelDefault : LogSeverity := -8
/-- Source: `LevelDebug = LogSeverity(slog.LevelDebug)`. -/
def LevelDebug : LogSeverity := slog.LevelDebug
/-- Source: `LevelInfo = LogSeverity(slog.LevelInfo)`. -/
def LevelInfo : LogSeverity := slog.LevelInfo
/-- Source: `LevelNotice = LogSeverity(2)`. -/
def LevelNotice : LogSeverity := 2
/-- Source: `LevelWarning = LogSeverity(slog.LevelWarn)`. -/
def LevelWarning : LogSeverity := slog.LevelWarn
/-- Source: `LevelError = LogSeverity(slog.LevelError)`. -/
def LevelError : LogSeverity := slog.LevelError
/-- Source: `LevelCritical = LogSeverity(60)`. -/
def LevelCritical : LogSeverity := 60
/-- Source: `LevelAlert = LogSeverity(70)`. -/
def LevelAlert : LogSeverity := 70
/-- Source: `LevelEmergency = LogSeverity(80)`. -/
def LevelEmergency : LogSeverity := 80

/-- Source: `var LevelNames = map[LogSeverity]string{...}`, as an association list in the order of
the map literal (the keys are distinct constants, so lookup order is immaterial). -/
def LevelNames : List (LogSeverity × String) :=
  [ (LevelDefault, "DEFAULT"),
    (LevelDebug, "DEBUG"),
    (LevelInfo, "INFO"),
    (LevelNotice, "NOTICE"),
    (LevelWarning, "WARNING"),
    (LevelError, "ERROR"),
    (LevelCritical, "CRITICAL"),
    (LevelAlert, "ALERT"),
    (LevelEmergency, "EMERGENCY") ]

/-- Source: `func (s LogSeverity) LogValue() string`: the table entry when there is one, otherwise
the standard string of the level. -/
def LogSeverity.LogValue (s : LogSeverity) : String :=
  match LevelNames.lookup s with
  | some v => v
  | none => slog.Level.String s

/-- Source: `func (s LogSeverity) Level() slog.Level`. -/
def LogSeverity.Level (s : LogSeverity) : Int := s

/-- The nine known severity constants: the keys of `LevelNames`. -/
def knownLevels : List LogSeverity := LevelNames.map Prod.fst

/-- The nine platform severity strings: the values of `LevelNames`. -/
def severityStrings : List String := LevelNames.map Prod.snd

/-! ## `time` -/

/-- Modelled from the spec: `time.Time` of the Go standard library (not under src/),
represented by what its formatting reads off it: the civil date and clock in the
time's own location, the sub-second part, and the zone offset in seconds east of UTC. -/
structure time.Time where
  year : Int
  month : Nat
  day : Nat
  hour : Nat
  minute : Nat
  second : Nat
  nsec : Nat
  offset : Int
deriving DecidableEq, Repr

/-- Modelled from the spec: `appendInt` of the Go standard library's `time` package (not
under src/): the decimal text of `x`, a minus sign first when negative, the magnitude
left-padded with zeros to `width` digits. -/
def time.appendInt (x : Int) (width : Nat) : String :=
  (if x < 0 then "-" else "")
    ++ String.mk (List.replicate (width - (Nat.repr x.natAbs).length) '0')
    ++ Nat.repr x.natAbs

/-- Modelled from the spec: the zone suffix `Z07:00` of the layout `time.RFC3339` (Go
standard library, not under src/): `Z` at offset zero, otherwise the sign and the offset
as hours and minutes, the offset being truncated to whole minutes. -/
def time.formatZone (offset : Int) : String :=
  if offset = 0 then "Z"
  else
    let zone := Int.tdiv offset 60
    (if zone < 0 then "-" else "+")
      ++ time.appendInt (zone.natAbs / 60 : Nat) 2 ++ ":" ++ time.appendInt (zone.natAbs % 60 : Nat) 2

/-- Modelled from the spec: `t.Format(time.RFC3339)` of the Go standard library (not under
src/), layout `2006-01-02T15:04:05Z07:00`: the "date-time with offset, second
precision" text of the timestamp. The sub-second part is not printed. -/
def time.Time.FormatRFC3339 (t : time.Time) : String :=
  time.appendInt t.year 4 ++ "-" ++ time.appendInt t.month 2 ++ "-" ++ time.appendInt t.day 2
    ++ "T" ++ time.appendInt t.hour 2 ++ ":" ++ time.appendInt t.minute 2 ++ ":"
    ++ time.appendInt t.second 2 ++ time.formatZone t.offset

/-! ## `go.opentelemetry.io/otel/trace` -/

/-- Modelled from the spec: `trace.TraceID`, a fixed-length identifier of 16 bytes
(OpenTelemetry, not under src/). -/
structure trace.TraceID where
  bytes : List (Fin 256)
  size : bytes.length = 16
deriving DecidableEq

/-- Modelled from the spec: `trace.SpanID`, a fixed-length identifier of 8 bytes
(OpenTelemetry, not under src/). -/
structure trace.SpanID where
  bytes : List (Fin 256)
  size : bytes.length = 8
deriving DecidableEq

/-- Modelled from the spec: one digit of the lowercase hexadecimal alphabet
`0123456789abcdef` used by `encoding/hex` (Go standard library, not under src/). -/
def hexDigit (n : Nat) : Char :=
  "0123456789abcdef".data.getD n '0'

/-- Modelled from the spec: `hex.EncodeToString` (Go standard library, not under src/): two
lowercase hex digits per byte, high nibble first. -/
def hexEncode : List (Fin 256) → List Char
  | [] => []
  | b :: bs => hexDigit (b.val / 16) :: hexDigit (b.val % 16) :: hexEncode bs

/-- Modelled from the spec: `TraceID.String`, "the trace identifier's canonical lowercase
hexadecimal text form" (OpenTelemetry, not under src/). -/
def trace.TraceID.String (t : trace.TraceID) : String :=
  String.mk (hexEncode t.bytes)

/-- Modelled from the spec: `trace.SpanContext` (OpenTelemetry, not under src/): the trace
id, the span id, the trace flags byte and the remote mark. The opaque trace state is
left out: the handler never reads it. -/
structure trace.SpanContext where
  traceID : trace.TraceID
  spanID : trace.SpanID
  traceFlags : Fin 256
  remote : Bool
deriving DecidableEq

/-- The all-zero trace id, the invalid one. -/
def trace.nilTraceID : trace.TraceID := ⟨List.replicate 16 0, by decide⟩

/-- The all-zero span id. -/
def trace.nilSpanID : trace.SpanID := ⟨List.replicate 8 0, by decide⟩

/-- Modelled from the spec: `SpanContext.HasTraceID` (OpenTelemetry, not under src/): the
trace id is valid, that is, not all zero. -/
def trace.SpanContext.HasTraceID (sc : trace.SpanContext) : Bool :=
  sc.traceID.bytes.any (fun b => b != 0)

/-- Modelled from the spec: `SpanContext.IsSampled` (OpenTelemetry, not under src/): the
sampled bit (`0x01`) of the trace flags is set. -/
def trace.SpanContext.IsSampled (sc : trace.SpanContext) : Bool :=
  sc.traceFlags.val % 2 == 1

/-- Modelled from the spec: the execution context (`context.Context`, Go standard library,
not under src/), which "carries zero-or-one active trace span". -/
structure Context where
  span : Option trace.SpanContext

/-- Modelled from the spec: `trace.SpanContextFromContext` (OpenTelemetry, not under src/):
the span context carried by the execution context, the zero span context when it
carries none. -/
def trace.SpanContextFromContext (ctx : Context) : trace.SpanContext :=
  match ctx.span with
  | some sc => sc
  | none => ⟨trace.nilTraceID, trace.nilSpanID, 0, false⟩

/-! ## `log/slog` values, attributes and records -/

/-- Modelled from the spec: the dynamic payload of a `slog.Value` of kind `KindAny` (Go
standard library, not under src/): a `slog.Level`, a `trace.SpanID`, or a value of some
other Go type, named by its type. -/
inductive slog.AnyPayload where
  | level (l : Int)
  | spanID (s : trace.SpanID)
  | other (goType : String)
deriving DecidableEq

/-- Modelled from the spec: `slog.Value` (Go standard library, not under src/), the "closed
tagged-variant value type" of attribute values, one constructor per `slog.Kind`. A float
is carried by its IEEE bits, a duration by its nanoseconds, a group by its members. -/
inductive slog.Value where
  | any (p : slog.AnyPayload)
  | bool (b : Bool)
  | duration (ns : Int)
  | float64 (bits : Nat)
  | int64 (n : Int)
  | string (s : String)
  | time (t : time.Time)
  | uint64 (n : Nat)
  | group (members : List (String × slog.Value))
  | logValuer (goType : String)

/-- Modelled from the spec: `slog.Attr` (Go standard library, not under src/): "a single
key/value pair within a structured log record". -/
structure slog.Attr where
  Key : String
  Value : slog.Value

/-- Modelled from the spec: `slog.LevelKey` of the Go standard library (not under src/). -/
def slog.LevelKey : String := "level"

/-- Modelled from the spec: `slog.MessageKey` of the Go standard library (not under src/). -/
def slog.MessageKey : String := "msg"

/-- Modelled from the spec: `slog.TimeKey` of the Go standard library (not under src/). -/
def slog.TimeKey : String := "time"

/-- The ways a Go run-time panic is raised by the accessors the rewrite step uses. -/
inductive Panic where
  | interfaceConversion
  | valueKind
deriving DecidableEq, Repr

/-- Modelled from the spec: the unchecked type assertion `v.Any().(slog.Level)` (Go language
and standard library, not under src/): the level when the value dynamically holds a
`slog.Level`, a run-time panic for a value of any other dynamic type. -/
def slog.Value.AnyLevel : slog.Value → Except Panic Int
  | .any (.level l) => .ok l
  | _ => .error .interfaceConversion

/-- Modelled from the spec: `slog.Value.Time` (Go standard library, not under src/): the
time of a value of kind `KindTime`; it panics on a value of any other kind. -/
def slog.Value.Time : slog.Value → Except Panic time.Time
  | .time t => .ok t
  | _ => .error .valueKind

/-- Modelled from the spec: `slog.Value.isEmptyGroup` (Go standard library, not under src/). -/
def slog.Value.isEmptyGroup : slog.Value → Bool
  | .group [] => true
  | _ => false

/-- Modelled from the spec: `slog.Record` (Go standard library, not under src/): "an ordered
sequence of attribute entries plus an implicit level and message". The split of the
attribute storage into an inline array and an overflow slice is not represented. -/
structure slog.Record where
  Time : time.Time
  Message : String
  Level : Int
  PC : Nat
  attrs : List slog.Attr

/-- Modelled from the spec: `Record.Add(key, value)` (Go standard library, not under src/) on
one key and its value already converted by `slog.AnyValue`: the attribute is appended
at the end, unless its value is an empty group. -/
def slog.Record.Add (r : slog.Record) (key : String) (v : slog.Value) : slog.Record :=
  if v.isEmptyGroup then r else { r with attrs := r.attrs ++ [⟨key, v⟩] }

/-- Source: the type of `HandlerOptions.ReplaceAttr`,
`func(groups []string, a slog.Attr) slog.Attr`, a call of which either returns an
attribute or panics. -/
abbrev ReplaceAttrFn := List String → slog.Attr → Except Panic slog.Attr

/-- Modelled from the spec: `slog.HandlerOptions` (Go standard library, not under src/):
"minimum level threshold, an optional caller-supplied rewrite function". -/
structure slog.HandlerOptions where
  AddSource : Bool
  Level : Option Int
  ReplaceAttr : Option ReplaceAttrFn

/-- Modelled from the spec: `slog.JSONHandler` (Go standard library, not under src/), the
external encoder: the sink it writes to and the options it was built with. -/
structure slog.JSONHandler (W : Type) where
  w : W
  opts : slog.HandlerOptions

/-- Modelled from the spec: `slog.NewJSONHandler` (Go standard library, not under src/). -/
def slog.NewJSONHandler {W : Type} (w : W) (opts : slog.HandlerOptions) : slog.JSONHandler W :=
  { w := w, opts := opts }

/-- Modelled from the spec: the result of the encoder's `Handle`: `nil` or an error (a write
failure of the sink), or a panic raised while encoding. -/
abbrev EncodeResult := Except Panic (Option String)

/-- Modelled from the spec: the attributes the encoder builds from the reserved fields of a
record and submits to the rewrite hook, in this order: the timestamp (omitted when the
record's time is zero, here `none`), the level, the message (`commonHandler.handle`
of the Go standard library, not under src/; no source attribute). -/
def slog.builtinAttrs (t : Option time.Time) (level : Int) (msg : String) : List slog.Attr :=
  (match t with
    | some t => [⟨slog.TimeKey, .time t⟩]
    | none => [])
  ++ [⟨slog.LevelKey, .any (.level level)⟩, ⟨slog.MessageKey, .string msg⟩]

/-! ## handler.go -/

/-- Source: `const TraceIdKey`. -/
def TraceIdKey : String := "logging.googleapis.com/trace"
/-- Source: `const SpanIdKey`. -/
def SpanIdKey : String := "logging.googleapis.com/spanId"
/-- Source: `const TraceSampledKey`. -/
def TraceSampledKey : String := "logging.googleapis.com/trace_sampled"

/-- Source: `type Options struct { slog.HandlerOptions; ProjectID string }`. -/
structure Options extends slog.HandlerOptions where
  ProjectID : String

/-- Source: `func rewriteAttrs(groups []string, a slog.Attr) slog.Attr`: the switch on the
attribute's key. The level case asserts that the value holds a `slog.Level` and the
time case reads the value as a time; both panic on a value of another type. -/
def rewriteAttrs (_groups : List String) (a : slog.Attr) : Except Panic slog.Attr :=
  if a.Key = slog.LevelKey then do
    let a := { a with Key := "severity" }
    let vint ← a.Value.AnyLevel
    pure { a with Value := .string (LogSeverity.LogValue vint) }
  else if a.Key = slog.MessageKey then
    pure { a with Key := "message" }
  else if a.Key = slog.TimeKey then do
    let t ← a.Value.Time
    pure { a with Value := .string t.FormatRFC3339 }
  else
    pure a

/-- Source: the closure `New` stores in `opts.ReplaceAttr`: `rewriteAttrs` first, then the
caller's `replacer` on its result when there is one. -/
def New.ReplaceAttr (replacer : Option ReplaceAttrFn) : ReplaceAttrFn :=
  fun groups a => do
    let a ← rewriteAttrs groups a
    match replacer with
    | some f => f groups a
    | none => pure a

/-- Source: `type GCPLogHandler struct { slog.JSONHandler; opts Options; out io.Writer }`. -/
structure GCPLogHandler (W : Type) where
  JSONHandler : slog.JSONHandler W
  opts : Options
  out : W

/-- Source: `func New(w io.Writer, opts *Options) *GCPLogHandler`; a nil `opts` is `none`. -/
def New {W : Type} (w : W) (opts : Option Options) : GCPLogHandler W :=
  let opts : Options := match opts with
    | some o => o
    | none => { AddSource := false, Level := none, ReplaceAttr := none, ProjectID := "" }
  let replacer := opts.ReplaceAttr
  let opts : Options := { opts with ReplaceAttr := some (New.ReplaceAttr replacer) }
  let h : GCPLogHandler W :=
    { out := w, JSONHandler := slog.NewJSONHandler w opts.toHandlerOptions, opts := opts }
  match h.opts.Level with
  | none => { h with opts := { h.opts with Level := some slog.LevelInfo } }
  | some _ => h

/-- Source: `func (h GCPLogHandler) Handle(ctx context.Context, r slog.Record) error`. The
embedded encoder's `Handle` is the parameter `jsonHandle`; `fmt.Sprintf` with two `%s`
verbs on strings is the concatenation of the pieces. -/
def GCPLogHandler.Handle {W : Type}
    (jsonHandle : slog.JSONHandler W → Context → slog.Record → EncodeResult)
    (h : GCPLogHandler W) (ctx : Context) (r : slog.Record) : EncodeResult :=
  let span := trace.SpanContextFromContext ctx
  let r :=
    if h.opts.ProjectID ≠ "" ∧ span.HasTraceID = true then
      let r := r.Add TraceIdKey
        (.string ("projects/" ++ h.opts.ProjectID ++ "/traces/" ++ span.traceID.String))
      let r := r.Add SpanIdKey (.any (.spanID span.spanID))
      r.Add TraceSampledKey (.bool span.IsSampled)
    else r
  jsonHandle h.JSONHandler ctx r

/-! ## handler_test.go: the caller-supplied rewrite steps of `TestAttrRewrite` -/

/-- Source: the rewriter of the test case "modify". `valueString` stands for
`slog.Value.String`. -/
def TestAttrRewrite.modify (valueString : slog.Value → String) : ReplaceAttrFn :=
  fun _ a =>
    if valueString a.Value = "INFO" then pure { a with Value := .string "INFO+rewritten" }
    else pure a

/-- Source: the rewriter of the test case "override": the key "message" is set back to
`slog.MessageKey`. -/
def TestAttrRewrite.override : ReplaceAttrFn :=
  fun _ a =>
    if a.Key = "message" then pure { a with Key := slog.MessageKey }
    else pure a

/-- Source: the trace id `trace.TraceID{1}` of `TestOtelAttrs`: first byte 1, the rest 0. -/
def TestOtelAttrs.traceID : trace.TraceID := ⟨1 :: List.replicate 15 0, by decide⟩

/-- Source: the span id `trace.SpanID{2}` of `TestOtelAttrs`: first byte 2, the rest 0. -/
def TestOtelAttrs.spanID : trace.SpanID := ⟨2 :: List.replicate 7 0, by decide⟩

/-- Source: the span context of `TestOtelAttrs` and `TestOtelWithoutProjectId`: trace id
`{1}`, span id `{2}`, trace flags 0. -/
def TestOtelAttrs.spanContext : trace.SpanContext :=
  ⟨TestOtelAttrs.traceID, TestOtelAttrs.spanID, 0, false⟩

/-- Source: the handler of `TestOtelAttrs`: `New(buf, &Options{ProjectID: "my-project"})`. -/
def TestOtelAttrs.handler : GCPLogHandler Unit :=
  New () (some { AddSource := false, Level := none, ReplaceAttr := none, ProjectID := "my-project" })

/-- Source: the handler of `TestOtelWithoutProjectId`: `New(buf, &Options{})`. -/
def TestOtelWithoutProjectId.handler : GCPLogHandler Unit :=
  New () (some { AddSource := false, Level := none, ReplaceAttr := none, ProjectID := "" })

/-- A record as `l.WarnContext(ctx, "a warning")` builds it, with one attribute added by the
caller. -/
def sampleRecord : slog.Record :=
  { Time := ⟨2024, 3, 9, 7, 5, 0, 123, 0⟩, Message := "a warning", Level := slog.LevelWarn,
    PC := 0, attrs := [⟨"user", .string "u1"⟩] }

/-- A stand-in for the encoder that reports the keys of the record it is handed, in order,
as its error text. -/
def keysEncoder : slog.JSONHandler Unit → Context → slog.Record → EncodeResult :=
  fun _ _ r => .ok (some (String.intercalate "," (r.attrs.map (fun a => a.Key))))

/-- A stand-in for `slog.Value.String` that is exact on string values. -/
def stringOfValue : slog.Value → String
  | .string s => s
  | _ => ""

/-! ## Decimal digits: reading the digits back recovers the number -/

theorem digitChar_toNat : ∀ k, k < 10 → (Nat.digitChar k).toNat - 48 = k := by
  decide

theorem toDigitsCore_foldl (fuel : Nat) : ∀ (n : Nat) (ds : List Char), n < fuel →
    List.foldl (fun acc c => 10 * acc + (c.toNat - 48)) 0 (Nat.toDigitsCore 10 fuel n ds)
      = List.foldl (fun acc c => 10 * acc + (c.toNat - 48)) n ds := by
  induction fuel with
  | zero => intro n ds h; omega
  | succ fuel ih =>
    intro n ds h
    have hk := digitChar_toNat (n % 10) (Nat.mod_lt _ (by decide))
    by_cases h0 : n / 10 = 0
    · have hn : n % 10 = n := Nat.mod_eq_of_lt (by omega)
      rw [hn] at hk
      simp [Nat.toDigitsCore, h0, hn, hk]
    · have hlt : n / 10 < fuel := by omega
      simp only [Nat.toDigitsCore, h0, if_false]
      rw [ih (n / 10) _ hlt]
      simp only [List.foldl_cons, hk]
      congr 1
      omega

theorem toDigits_injective {a b : Nat} (h : Nat.toDigits 10 a = Nat.toDigits 10 b) : a = b := by
  have key : ∀ n, List.foldl (fun acc c => 10 * acc + (c.toNat - 48)) 0 (Nat.toDigits 10 n) = n := by
    intro n
    unfold Nat.toDigits
    rw [toDigitsCore_foldl (n + 1) n [] (by omega)]
    rfl
  have h2 := congrArg (List.foldl (fun acc c => 10 * acc + (c.toNat - 48)) 0) h
  rwa [key a, key b] at h2

/-! ## The shape of the texts of `fmtPlusD` and `slog.Level.String` -/

theorem fmtPlusD_data (v : Int) :
    (fmtPlusD v).data = (if v < 0 then '-' else '+') :: Nat.toDigits 10 v.natAbs := by
  unfold fmtPlusD Nat.repr
  split <;> simp [String.data_append, List.asString]

theorem fmtPlusD_injective {a b : Int} (h : fmtPlusD a = fmtPlusD b) : a = b := by
  have hd := congrArg String.data h
  rw [fmtPlusD_data, fmtPlusD_data] at hd
  injection hd with hs hn
  have hn := toDigits_injective hn
  by_cases ha : a < 0 <;> by_cases hb : b < 0 <;> simp [ha, hb] at hs <;> omega

theorem levelStr_data (base : String) (v : Int) :
    (slog.Level.str base v).data
      = base.data ++ (if v = 0 then [] else (if v < 0 then '-' else '+') :: Nat.toDigits 10 v.natAbs) := by
  unfold slog.Level.str
  split
  · simp
  · simp [String.data_append, fmtPlusD_data]

theorem levelStr_injective (base : String) {u v : Int}
    (h : slog.Level.str base u = slog.Level.str base v) : u = v := by
  have hd := congrArg String.data h
  rw [levelStr_data, levelStr_data] at hd
  have hs := List.append_cancel_left hd
  by_cases hu : u = 0 <;> by_cases hv : v = 0
  · rw [hu, hv]
  · simp [hu, hv] at hs
  · simp [hu, hv] at hs
  · simp only [hu, hv, if_false] at hs
    have h2 : fmtPlusD u = fmtPlusD v := by
      apply String.ext
      rw [fmtPlusD_data, fmtPlusD_data]
      exact hs
    exact fmtPlusD_injective h2

theorem levelString_cases (l : Int) :
    (l < 0 ∧ slog.Level.String l = slog.Level.str "DEBUG" (l + 4))
    ∨ (0 ≤ l ∧ l < 4 ∧ slog.Level.String l = slog.Level.str "INFO" l)
    ∨ (4 ≤ l ∧ l < 8 ∧ slog.Level.String l = slog.Level.str "WARN" (l - 4))
    ∨ (8 ≤ l ∧ slog.Level.String l = slog.Level.str "ERROR" (l - 8)) := by
  unfold slog.Level.String slog.LevelInfo slog.LevelWarn slog.LevelError slog.LevelDebug
  by_cases h0 : l < 0
  · left; simp [h0]
  · by_cases h4 : l < 4
    · right; left; simp [h0, h4]; omega
    · by_cases h8 : l < 8
      · right; right; left; simp [h0, h4, h8]; omega
      · right; right; right; simp [h0, h4, h8]; omega

theorem levelStr_cross {b₁ b₂ : String} {u v : Int} (c₁ c₂ : Char) (t₁ t₂ : List Char)
    (h₁ : b₁.data = c₁ :: t₁) (h₂ : b₂.data = c₂ :: t₂) (hc : c₁ ≠ c₂) :
    slog.Level.str b₁ u ≠ slog.Level.str b₂ v := by
  intro h
  have hd := congrArg String.data h
  rw [levelStr_data, levelStr_data, h₁, h₂] at hd
  simp only [List.cons_append] at hd
  injection hd with hhead _
  exact hc hhead

theorem levelString_injective : Function.Injective slog.Level.String := by
  intro a b h
  rcases levelString_cases a with ⟨ha, ea⟩ | ⟨ha, ha2, ea⟩ | ⟨ha, ha2, ea⟩ | ⟨ha, ea⟩ <;>
  rcases levelString_cases b with ⟨hb, eb⟩ | ⟨hb, hb2, eb⟩ | ⟨hb, hb2, eb⟩ | ⟨hb, eb⟩ <;>
  rw [ea, eb] at h <;>
  first
    | exact absurd h (levelStr_cross _ _ _ _ rfl rfl (by decide))
    | exact (by have hinj := levelStr_injective _ h; omega)

/-- The texts of the default naming scheme: a base name, then nothing or a sign and more. -/
theorem levelString_shape (l : Int) :
    ∃ base ∈ [['D', 'E', 'B', 'U', 'G'], ['I', 'N', 'F', 'O'], ['W', 'A', 'R', 'N'],
        ['E', 'R', 'R', 'O', 'R']],
      ∃ rest, (rest = [] ∨ ∃ ds, rest = '-' :: ds ∨ rest = '+' :: ds)
        ∧ (slog.Level.String l).data = base ++ rest := by
  have hsfx : ∀ v : Int, (if v = 0 then [] else (if v < 0 then '-' else '+') :: Nat.toDigits 10 v.natAbs)
      = ([] : List Char) ∨ ∃ ds, (if v = 0 then [] else (if v < 0 then '-' else '+') :: Nat.toDigits 10 v.natAbs)
      = '-' :: ds ∨ (if v = 0 then [] else (if v < 0 then '-' else '+') :: Nat.toDigits 10 v.natAbs)
      = '+' :: ds := by
    intro v
    by_cases h0 : v = 0
    · left; simp [h0]
    · right
      refine ⟨Nat.toDigits 10 v.natAbs, ?_⟩
      by_cases hn : v < 0
      · left; simp [h0, hn]
      · right; simp [h0, hn]
  rcases levelString_cases l with ⟨_, e⟩ | ⟨_, _, e⟩ | ⟨_, _, e⟩ | ⟨_, e⟩
  · exact ⟨['D', 'E', 'B', 'U', 'G'], by simp, _, hsfx _, by rw [e, levelStr_data]⟩
  · exact ⟨['I', 'N', 'F', 'O'], by simp, _, hsfx _, by rw [e, levelStr_data]⟩
  · exact ⟨['W', 'A', 'R', 'N'], by simp, _, hsfx _, by rw [e, levelStr_data]⟩
  · exact ⟨['E', 'R', 'R', 'O', 'R'], by simp, _, hsfx _, by rw [e, levelStr_data]⟩

/-- None of the six severity names that are not standard level names is a text of the
default naming scheme. -/
theorem levelString_not_special (l : Int) :
    slog.Level.String l ∉ ["DEFAULT", "NOTICE", "WARNING", "CRITICAL", "ALERT", "EMERGENCY"] := by
  intro hmem
  obtain ⟨base, hbase, rest, hrest, hdata⟩ := levelString_shape l
  simp only [List.mem_cons, List.mem_singleton, List.not_mem_nil, or_false] at hmem hbase
  rcases hmem with h | h | h | h | h | h <;>
  rw [h] at hdata <;>
  rcases hbase with rfl | rfl | rfl | rfl <;>
  rcases hrest with rfl | ⟨ds, rfl | rfl⟩ <;>
  simp at hdata

/-- The severity mapper, case by case: the six names of its own, and the standard text
everywhere else (the table entries DEBUG, INFO and ERROR are the standard texts). -/
theorem severityText_cases (l : Int) :
    LogSeverity.LogValue l =
      if l = -8 then "DEFAULT" else if l = 2 then "NOTICE" else if l = 4 then "WARNING"
      else if l = 60 then "CRITICAL" else if l = 70 then "ALERT" else if l = 80 then "EMERGENCY"
      else slog.Level.String l := by
  by_cases h1 : l = -8
  · subst h1; decide
  by_cases h2 : l = 2
  · subst h2; decide
  by_cases h3 : l = 4
  · subst h3; decide
  by_cases h4 : l = 60
  · subst h4; decide
  by_cases h5 : l = 70
  · subst h5; decide
  by_cases h6 : l = 80
  · subst h6; decide
  by_cases h7 : l = -4
  · subst h7; decide
  by_cases h8 : l = 0
  · subst h8; decide
  by_cases h9 : l = 8
  · subst h9; decide
  simp only [h1, h2, h3, h4, h5, h6, if_false]
  have e1 : (l == (-8 : Int)) = false := by simpa using h1
  have e2 : (l == (2 : Int)) = false := by simpa using h2
  have e3 : (l == (4 : Int)) = false := by simpa using h3
  have e4 : (l == (60 : Int)) = false := by simpa using h4
  have e5 : (l == (70 : Int)) = false := by simpa using h5
  have e6 : (l == (80 : Int)) = false := by simpa using h6
  have e7 : (l == (-4 : Int)) = false := by simpa using h7
  have e8 : (l == (0 : Int)) = false := by simpa using h8
  have e9 : (l == (8 : Int)) = false := by simpa using h9
  simp only [LogSeverity.LogValue, LevelNames, List.lookup, LevelDefault, LevelDebug, LevelInfo,
    LevelNotice, LevelWarning, LevelError, LevelCritical, LevelAlert, LevelEmergency,
    slog.LevelDebug, slog.LevelInfo, slog.LevelWarn, slog.LevelError,
    e1, e2, e3, e4, e5, e6, e7, e8, e9]

theorem mem_knownLevels (l : Int) :
    l ∈ knownLevels ↔ l = -8 ∨ l = -4 ∨ l = 0 ∨ l = 2 ∨ l = 4 ∨ l = 8 ∨ l = 60 ∨ l = 70 ∨ l = 80 := by
  simp [knownLevels, LevelNames, LevelDefault, LevelDebug, LevelInfo,
    LevelNotice, LevelWarning, LevelError, LevelCritical, LevelAlert, LevelEmergency,
    slog.LevelDebug, slog.LevelInfo, slog.LevelWarn, slog.LevelError]

theorem severityText_inj (a b : Int) (h : LogSeverity.LogValue a = LogSeverity.LogValue b) :
    a = b := by
  rw [severityText_cases a, severityText_cases b] at h
  have hsa := levelString_not_special a
  have hsb := levelString_not_special b
  simp only [List.mem_cons, List.mem_singleton, List.not_mem_nil, or_false, not_or] at hsa hsb
  split_ifs at h <;> first
    | omega
    | exact levelString_injective h
    | exact absurd h (by decide)
    | (exfalso; simp_all)

theorem levelString_ne_empty (l : Int) : slog.Level.String l ≠ "" := by
  intro h
  obtain ⟨base, hbase, rest, _, hdata⟩ := levelString_shape l
  rw [h] at hdata
  simp only [List.mem_cons, List.mem_singleton, List.not_mem_nil, or_false] at hbase
  rcases hbase with rfl | rfl | rfl | rfl <;> simp at hdata

theorem levelString_standard (l : Int) (h : slog.Level.String l ∈ severityStrings) :
    l = -4 ∨ l = 0 ∨ l = 8 := by
  have hs := levelString_not_special l
  simp only [severityStrings, LevelNames, List.map, List.mem_cons, List.mem_singleton,
    List.not_mem_nil, or_false, not_or] at h hs
  rcases h with h | h | h | h | h | h | h | h | h
  · exact absurd h hs.1
  · left; exact levelString_injective (h.trans (by decide))
  · right; left; exact levelString_injective (h.trans (by decide))
  · exact absurd h hs.2.1
  · exact absurd h hs.2.2.1
  · right; right; exact levelString_injective (h.trans (by decide))
  · exact absurd h hs.2.2.2.1
  · exact absurd h hs.2.2.2.2.1
  · exact absurd h hs.2.2.2.2.2

theorem severityText_fallback (l : Int) (h : l ∉ knownLevels) :
    LogSeverity.LogValue l = slog.Level.String l := by
  rw [mem_knownLevels] at h
  simp only [not_or] at h
  rw [severityText_cases]
  simp [h.1, h.2.2.2.1, h.2.2.2.2.1, h.2.2.2.2.2.2.1, h.2.2.2.2.2.2.2.1, h.2.2.2.2.2.2.2.2]

/-! ## The severity mapper: C1, C6, C10 -/

/-- C1: for each of the nine known severity constants (with the numeric value the source
binds it to) `LogSeverity.LogValue` returns exactly its platform string. -/
theorem LogValue_known_constants :
    (LevelDefault = -8 ∧ LogSeverity.LogValue LevelDefault = "DEFAULT")
    ∧ (LevelDebug = -4 ∧ LogSeverity.LogValue LevelDebug = "DEBUG")
    ∧ (LevelInfo = 0 ∧ LogSeverity.LogValue LevelInfo = "INFO")
    ∧ (LevelNotice = 2 ∧ LogSeverity.LogValue LevelNotice = "NOTICE")
    ∧ (LevelWarning = 4 ∧ LogSeverity.LogValue LevelWarning = "WARNING")
    ∧ (LevelError = 8 ∧ LogSeverity.LogValue LevelError = "ERROR")
    ∧ (LevelCritical = 60 ∧ LogSeverity.LogValue LevelCritical = "CRITICAL")
    ∧ (LevelAlert = 70 ∧ LogSeverity.LogValue LevelAlert = "ALERT")
    ∧ (LevelEmergency = 80 ∧ LogSeverity.LogValue LevelEmergency = "EMERGENCY") := by
  decide

/-- C6: `LogSeverity.LogValue` is a total function on the integers that never returns the
empty string; on every level outside the nine known constants it returns the text of the
default naming scheme, which there is the base name (DEBUG below 0, INFO on 0..3, WARN on
4..7, ERROR from 8 on) followed by the signed offset from the base level (-4, 0, 4, 8);
and below the lowest known constant (-8) the text starts with the token DEBUG. -/
theorem LogValue_total_fallback (l : Int) :
    LogSeverity.LogValue l ≠ ""
    ∧ (l ∉ knownLevels →
        LogSeverity.LogValue l = slog.Level.String l
        ∧ (l < 0 → LogSeverity.LogValue l = "DEBUG" ++ fmtPlusD (l + 4))
        ∧ (0 ≤ l → l < 4 → LogSeverity.LogValue l = "INFO" ++ fmtPlusD l)
        ∧ (4 ≤ l → l < 8 → LogSeverity.LogValue l = "WARN" ++ fmtPlusD (l - 4))
        ∧ (8 ≤ l → LogSeverity.LogValue l = "ERROR" ++ fmtPlusD (l - 8)))
    ∧ (l < -8 → ∃ rest, LogSeverity.LogValue l = "DEBUG" ++ rest) := by
  have hfall : l ∉ knownLevels →
      LogSeverity.LogValue l = slog.Level.String l
        ∧ (l < 0 → LogSeverity.LogValue l = "DEBUG" ++ fmtPlusD (l + 4))
        ∧ (0 ≤ l → l < 4 → LogSeverity.LogValue l = "INFO" ++ fmtPlusD l)
        ∧ (4 ≤ l → l < 8 → LogSeverity.LogValue l = "WARN" ++ fmtPlusD (l - 4))
        ∧ (8 ≤ l → LogSeverity.LogValue l = "ERROR" ++ fmtPlusD (l - 8)) := by
    intro hk
    have hf := severityText_fallback l hk
    rw [mem_knownLevels] at hk
    simp only [not_or] at hk
    refine ⟨hf, ?_, ?_, ?_, ?_⟩
    · intro h
      rcases levelString_cases l with ⟨_, e⟩ | ⟨_, _, e⟩ | ⟨_, _, e⟩ | ⟨_, e⟩ <;> try omega
      rw [hf, e, slog.Level.str, if_neg (by omega)]
    · intro h h'
      rcases levelString_cases l with ⟨_, e⟩ | ⟨_, _, e⟩ | ⟨_, _, e⟩ | ⟨_, e⟩ <;> try omega
      rw [hf, e, slog.Level.str, if_neg (by omega)]
    · intro h h'
      rcases levelString_cases l with ⟨_, e⟩ | ⟨_, _, e⟩ | ⟨_, _, e⟩ | ⟨_, e⟩ <;> try omega
      rw [hf, e, slog.Level.str, if_neg (by omega)]
    · intro h
      rcases levelString_cases l with ⟨_, e⟩ | ⟨_, _, e⟩ | ⟨_, _, e⟩ | ⟨_, e⟩ <;> try omega
      rw [hf, e, slog.Level.str, if_neg (by omega)]
  refine ⟨?_, hfall, ?_⟩
  · by_cases hk : l ∈ knownLevels
    · rw [mem_knownLevels] at hk
      rcases hk with rfl | rfl | rfl | rfl | rfl | rfl | rfl | rfl | rfl <;> decide
    · rw [severityText_fallback l hk]
      exact levelString_ne_empty l
  · intro h
    have hk : l ∉ knownLevels := by
      rw [mem_knownLevels]
      omega
    exact ⟨fmtPlusD (l + 4), (hfall hk).2.1 (by omega)⟩

/-- Witness of C6 at level 7, which is none of the nine constants: the text is WARN+3. -/
theorem LogValue_total_fallback_witness :
    (7 : Int) ∉ knownLevels ∧ LogSeverity.LogValue 7 = "WARN" ++ fmtPlusD (7 - 4)
      ∧ "WARN" ++ fmtPlusD (7 - 4) = "WARN+3"
      ∧ ((-9 : Int) < -8 ∧ ∃ rest, LogSeverity.LogValue (-9) = "DEBUG" ++ rest) :=
  ⟨by decide,
    ((LogValue_total_fallback 7).2.1 (by decide)).2.2.2.1 (by decide) (by decide),
    by decide,
    by decide, (LogValue_total_fallback (-9)).2.2 (by decide)⟩

/-- C10: `LogSeverity.LogValue` is injective on the integers; the nine table strings are
pairwise distinct; no level outside the nine known constants is mapped to one of the nine
platform strings; and the default naming scheme yields one of the nine strings only at a
level that the table maps to that same string. -/
theorem LogValue_injective :
    Function.Injective LogSeverity.LogValue
    ∧ severityStrings.Nodup
    ∧ (∀ l : Int, l ∉ knownLevels → LogSeverity.LogValue l ∉ severityStrings)
    ∧ (∀ l : Int, slog.Level.String l ∈ severityStrings →
        LevelNames.lookup l = some (slog.Level.String l)) := by
  refine ⟨fun a b h => severityText_inj a b h, by decide, ?_, ?_⟩
  · intro l hk hmem
    rw [severityText_fallback l hk] at hmem
    have := levelString_standard l hmem
    rw [mem_knownLevels] at hk
    omega
  · intro l hmem
    rcases levelString_standard l hmem with rfl | rfl | rfl <;> decide

/-- Witness of C10 at level 7: it is outside the table and its text is not a platform
string; and the standard text of level 8, ERROR, is the table entry of level 8. -/
theorem LogValue_injective_witness :
    (7 : Int) ∉ knownLevels ∧ LogSeverity.LogValue 7 ∉ severityStrings
      ∧ slog.Level.String 8 ∈ severityStrings
      ∧ LevelNames.lookup (8 : Int) = some (slog.Level.String 8) :=
  ⟨by decide, LogValue_injective.2.2.1 7 (by decide), by decide,
    LogValue_injective.2.2.2 8 (by decide)⟩

/-! ## The rewrite step: C3, C7, C8, C2 -/

/-- The built-in rewrite returns an attribute exactly when it is not handed a level key
with a value that holds no level, nor a time key with a value that is no time. -/
theorem rewriteAttrs_returns_iff (groups : List String) (a : slog.Attr) :
    (∃ b, rewriteAttrs groups a = .ok b)
      ↔ (a.Key = "level" → ∃ l, a.Value = .any (.level l))
        ∧ (a.Key = "time" → ∃ t, a.Value = .time t) := by
  obtain ⟨k, v⟩ := a
  by_cases h1 : k = "level"
  · subst h1
    cases v with
    | any p => cases p <;> simp [rewriteAttrs, slog.LevelKey, slog.Value.AnyLevel, bind, Except.bind, pure, Except.pure]
    | _ => simp [rewriteAttrs, slog.LevelKey, slog.Value.AnyLevel, bind, Except.bind]
  · by_cases h2 : k = "msg"
    · subst h2
      simp [rewriteAttrs, slog.LevelKey, slog.MessageKey, pure, Except.pure]
    · by_cases h3 : k = "time"
      · subst h3
        cases v <;> simp [rewriteAttrs, slog.LevelKey, slog.MessageKey, slog.TimeKey, slog.Value.Time, bind, Except.bind, pure, Except.pure]
      · simp [rewriteAttrs, slog.LevelKey, slog.MessageKey, slog.TimeKey, h1, h2, h3, pure, Except.pure]

/-- C3: with no caller-supplied step, for every group path: the level attribute holding
level L becomes key severity with the string `LogSeverity(L).LogValue()`; the message
attribute becomes key message with its value unchanged; the timestamp attribute keeps its
key and its value becomes the RFC 3339 text of the time, which does not depend on the
sub-second part. -/
theorem rewriteAttrs_reserved (groups : List String) (L : Int) (v : slog.Value) (t : time.Time) :
    (slog.LevelKey = "level" ∧ slog.MessageKey = "msg" ∧ slog.TimeKey = "time")
    ∧ rewriteAttrs groups ⟨slog.LevelKey, .any (.level L)⟩
        = .ok ⟨"severity", .string (LogSeverity.LogValue L)⟩
    ∧ rewriteAttrs groups ⟨slog.MessageKey, v⟩ = .ok ⟨"message", v⟩
    ∧ rewriteAttrs groups ⟨slog.TimeKey, .time t⟩ = .ok ⟨"time", .string t.FormatRFC3339⟩
    ∧ New.ReplaceAttr none groups ⟨slog.LevelKey, .any (.level L)⟩
        = .ok ⟨"severity", .string (LogSeverity.LogValue L)⟩
    ∧ New.ReplaceAttr none groups ⟨slog.MessageKey, v⟩ = .ok ⟨"message", v⟩
    ∧ New.ReplaceAttr none groups ⟨slog.TimeKey, .time t⟩ = .ok ⟨"time", .string t.FormatRFC3339⟩
    ∧ (∀ ns : Nat, ({ t with nsec := ns } : time.Time).FormatRFC3339 = t.FormatRFC3339)
    ∧ (⟨2024, 3, 9, 7, 5, 0, 123456789, -19800⟩ : time.Time).FormatRFC3339
        = "2024-03-09T07:05:00-05:30" := by
  refine ⟨⟨rfl, rfl, rfl⟩, rfl, rfl, rfl, rfl, rfl, rfl, fun _ => rfl, by decide⟩

/-- C7 (failing inputs): on an attribute with key level whose value is a string, and on an
attribute inside the group req with key time whose value is an integer, the built-in
rewrite step panics instead of returning an attribute. -/
theorem rewriteAttrs_panics :
    rewriteAttrs [] ⟨"level", .string "high"⟩ = .error .interfaceConversion
    ∧ rewriteAttrs ["req"] ⟨"time", .int64 12⟩ = .error .valueKind
    ∧ New.ReplaceAttr none [] ⟨"level", .string "high"⟩ = .error .interfaceConversion
    ∧ ¬ (∀ (groups : List String) (a : slog.Attr), ∃ b, rewriteAttrs groups a = .ok b) := by
  refine ⟨rfl, rfl, rfl, ?_⟩
  intro h
  obtain ⟨b, hb⟩ := h [] ⟨"level", .string "high"⟩
  cases hb

/-- C8: for every group path, an attribute whose key is none of level, msg and time is
returned unchanged; the three injected trace keys differ from those reserved keys and from
the output keys severity and message; so an attribute under any of the three trace keys,
whatever its value, passes through the built-in rewrite unchanged. -/
theorem rewriteAttrs_passthrough :
    (∀ (groups : List String) (a : slog.Attr),
        a.Key ≠ slog.LevelKey → a.Key ≠ slog.MessageKey → a.Key ≠ slog.TimeKey →
        rewriteAttrs groups a = .ok a)
    ∧ (∀ k ∈ [TraceIdKey, SpanIdKey, TraceSampledKey],
        k ∉ [slog.LevelKey, slog.MessageKey, slog.TimeKey, "severity", "message"])
    ∧ (∀ (groups : List String) (v : slog.Value),
        rewriteAttrs groups ⟨TraceIdKey, v⟩ = .ok ⟨TraceIdKey, v⟩
        ∧ rewriteAttrs groups ⟨SpanIdKey, v⟩ = .ok ⟨SpanIdKey, v⟩
        ∧ rewriteAttrs groups ⟨TraceSampledKey, v⟩ = .ok ⟨TraceSampledKey, v⟩) := by
  refine ⟨?_, by decide, fun _ _ => ⟨rfl, rfl, rfl⟩⟩
  intro groups a h1 h2 h3
  simp [rewriteAttrs, h1, h2, h3, pure, Except.pure]

/-- Witness of C8 at the attribute user = 3 inside the group req. -/
theorem rewriteAttrs_passthrough_witness :
    ("user" ≠ slog.LevelKey ∧ "user" ≠ slog.MessageKey ∧ "user" ≠ slog.TimeKey)
      ∧ rewriteAttrs ["req"] ⟨"user", .int64 3⟩ = .ok ⟨"user", .int64 3⟩ :=
  ⟨by decide, rewriteAttrs_passthrough.1 ["req"] ⟨"user", .int64 3⟩
    (by decide) (by decide) (by decide)⟩

/-- C2: the hook `New` installs in the encoder's options runs the built-in step first and the
caller's step second, on the built-in's output, and is the built-in step alone when no
caller step is configured. Hence with the test's override step the message attribute
comes out under key msg, no reserved attribute of a record comes out under key message,
and the level attribute still comes out as severity = INFO; and with the test's modify
step the level attribute comes out as severity = INFO+rewritten. -/
theorem New_ReplaceAttr_composition (valueString : slog.Value → String)
    (hvs : ∀ s : String, valueString (.string s) = s) :
    (∀ (caller : ReplaceAttrFn) (g : List String) (a : slog.Attr),
        New.ReplaceAttr (some caller) g a = rewriteAttrs g a >>= caller g)
    ∧ (∀ (caller : ReplaceAttrFn) (g : List String) (a b : slog.Attr),
        rewriteAttrs g a = .ok b → New.ReplaceAttr (some caller) g a = caller g b)
    ∧ (∀ (g : List String) (a : slog.Attr), New.ReplaceAttr none g a = rewriteAttrs g a)
    ∧ (∀ (W : Type) (w : W) (o : Options),
        (New w (some o)).JSONHandler.opts.ReplaceAttr = some (New.ReplaceAttr o.ReplaceAttr)
        ∧ (New w (some o)).opts.ReplaceAttr = some (New.ReplaceAttr o.ReplaceAttr))
    ∧ (∀ (W : Type) (w : W),
        (New w none).JSONHandler.opts.ReplaceAttr = some (New.ReplaceAttr none))
    ∧ (∀ (g : List String) (m : String),
        New.ReplaceAttr (some TestAttrRewrite.override) g ⟨slog.MessageKey, .string m⟩
          = .ok ⟨"msg", .string m⟩)
    ∧ (∀ g : List String,
        New.ReplaceAttr (some TestAttrRewrite.override) g ⟨slog.LevelKey, .any (.level LevelInfo)⟩
          = .ok ⟨"severity", .string "INFO"⟩)
    ∧ (∀ (t : Option time.Time) (m : String), ∀ a ∈ slog.builtinAttrs t LevelInfo m,
        ∃ b, New.ReplaceAttr (some TestAttrRewrite.override) [] a = .ok b ∧ b.Key ≠ "message")
    ∧ (∀ g : List String,
        New.ReplaceAttr (some (TestAttrRewrite.modify valueString)) g
            ⟨slog.LevelKey, .any (.level LevelInfo)⟩
          = .ok ⟨"severity", .string "INFO+rewritten"⟩) := by
  refine ⟨?_, ?_, ?_, ?_, ?_, ?_, ?_, ?_, ?_⟩
  · intro caller g a
    rfl
  · intro caller g a b hb
    simp [New.ReplaceAttr, hb, bind, Except.bind]
  · intro g a
    simp only [New.ReplaceAttr]
    cases rewriteAttrs g a <;> rfl
  · intro W w o
    constructor <;> (simp only [New]; cases o.Level <;> rfl)
  · intro W w
    rfl
  · intro g m
    rfl
  · intro g
    rfl
  · intro t m a ha
    cases t with
    | none =>
      simp only [slog.builtinAttrs, List.nil_append, List.mem_cons, List.mem_singleton,
        List.not_mem_nil, or_false] at ha
      rcases ha with rfl | rfl
      · exact ⟨⟨"severity", .string "INFO"⟩, rfl, (by decide : "severity" ≠ "message")⟩
      · exact ⟨⟨"msg", .string m⟩, rfl, (by decide : "msg" ≠ "message")⟩
    | some t =>
      simp only [slog.builtinAttrs, List.cons_append, List.nil_append, List.mem_cons,
        List.mem_singleton, List.not_mem_nil, or_false] at ha
      rcases ha with rfl | rfl | rfl
      · exact ⟨⟨"time", .string t.FormatRFC3339⟩, rfl, (by decide : "time" ≠ "message")⟩
      · exact ⟨⟨"severity", .string "INFO"⟩, rfl, (by decide : "severity" ≠ "message")⟩
      · exact ⟨⟨"msg", .string m⟩, rfl, (by decide : "msg" ≠ "message")⟩
  · intro g
    have h1 : rewriteAttrs g ⟨slog.LevelKey, .any (.level LevelInfo)⟩
        = .ok ⟨"severity", .string "INFO"⟩ := rfl
    simp [New.ReplaceAttr, h1, bind, Except.bind, TestAttrRewrite.modify, hvs, pure, Except.pure]

/-- Witness of C2 with a stand-in for `slog.Value.String` that is exact on strings. -/
theorem New_ReplaceAttr_composition_witness :
    (∀ s : String, stringOfValue (.string s) = s)
      ∧ New.ReplaceAttr (some (TestAttrRewrite.modify stringOfValue)) []
            ⟨slog.LevelKey, .any (.level LevelInfo)⟩
          = .ok ⟨"severity", .string "INFO+rewritten"⟩ :=
  ⟨fun _ => rfl, (New_ReplaceAttr_composition stringOfValue (fun _ => rfl)).2.2.2.2.2.2.2.2 []⟩

/-! ## Trace enrichment and the encoder's result: C4, C5, C9 -/

theorem hexDigit_mem : ∀ n, n < 16 → hexDigit n ∈ "0123456789abcdef".data := by
  decide

theorem hexEncode_length (bs : List (Fin 256)) : (hexEncode bs).length = 2 * bs.length := by
  induction bs with
  | nil => rfl
  | cons b bs ih => simp only [hexEncode, List.length_cons, ih]; omega

theorem hexEncode_mem (bs : List (Fin 256)) :
    ∀ c ∈ hexEncode bs, c ∈ "0123456789abcdef".data := by
  induction bs with
  | nil => intro c hc; cases hc
  | cons b bs ih =>
    intro c hc
    simp only [hexEncode, List.mem_cons] at hc
    rcases hc with rfl | rfl | hc
    · exact hexDigit_mem _ (by have hb := b.isLt; omega)
    · exact hexDigit_mem _ (Nat.mod_lt _ (by decide))
    · exact ih c hc

/-- The three attributes `Handle` appends for a project and a span context. -/
theorem Handle_eq {W : Type}
    (jsonHandle : slog.JSONHandler W → Context → slog.Record → EncodeResult)
    (h : GCPLogHandler W) (ctx : Context) (r : slog.Record) :
    GCPLogHandler.Handle jsonHandle h ctx r
      = jsonHandle h.JSONHandler ctx
          (if h.opts.ProjectID ≠ "" ∧ (trace.SpanContextFromContext ctx).HasTraceID = true then
            { r with attrs := r.attrs ++
              [ ⟨"logging.googleapis.com/trace", .string ("projects/" ++ h.opts.ProjectID
                  ++ "/traces/" ++ (trace.SpanContextFromContext ctx).traceID.String)⟩,
                ⟨"logging.googleapis.com/spanId",
                  .any (.spanID (trace.SpanContextFromContext ctx).spanID)⟩,
                ⟨"logging.googleapis.com/trace_sampled",
                  .bool (trace.SpanContextFromContext ctx).IsSampled⟩ ] }
          else r) := by
  by_cases hc : h.opts.ProjectID ≠ "" ∧ (trace.SpanContextFromContext ctx).HasTraceID = true
  · simp only [GCPLogHandler.Handle, if_pos hc]
    simp [slog.Record.Add, slog.Value.isEmptyGroup, TraceIdKey, SpanIdKey, TraceSampledKey]
  · simp only [GCPLogHandler.Handle, if_neg hc]

/-- C4: when the configured project ID is non-empty and the context carries a valid trace
ID, `Handle` hands the encoder the record with its attribute sequence unchanged and
followed by exactly three attributes, in this order: the trace key with
projects/PROJECT/traces/TRACEID, the span-id key with the span ID, and the trace-sampled
key with the sampled flag, whatever its value. The trace ID text has 32 characters, all
lowercase hex digits; for project my-project and trace ID bytes 1,0,...,0 the trace value
is projects/my-project/traces/01000000000000000000000000000000. -/
theorem Handle_appends_trace_attrs {W : Type}
    (jsonHandle : slog.JSONHandler W → Context → slog.Record → EncodeResult)
    (h : GCPLogHandler W) (ctx : Context) (r : slog.Record)
    (hp : h.opts.ProjectID ≠ "")
    (ht : (trace.SpanContextFromContext ctx).HasTraceID = true) :
    GCPLogHandler.Handle jsonHandle h ctx r
        = jsonHandle h.JSONHandler ctx
            { r with attrs := r.attrs ++
              [ ⟨"logging.googleapis.com/trace", .string ("projects/" ++ h.opts.ProjectID
                  ++ "/traces/" ++ (trace.SpanContextFromContext ctx).traceID.String)⟩,
                ⟨"logging.googleapis.com/spanId",
                  .any (.spanID (trace.SpanContextFromContext ctx).spanID)⟩,
                ⟨"logging.googleapis.com/trace_sampled",
                  .bool (trace.SpanContextFromContext ctx).IsSampled⟩ ] }
    ∧ (trace.SpanContextFromContext ctx).traceID.String.length = 32
    ∧ (∀ c ∈ (trace.SpanContextFromContext ctx).traceID.String.data,
        c ∈ "0123456789abcdef".data)
    ∧ "projects/" ++ "my-project" ++ "/traces/" ++ TestOtelAttrs.traceID.String
        = "projects/my-project/traces/01000000000000000000000000000000" := by
  refine ⟨?_, ?_, ?_, by decide⟩
  · rw [Handle_eq, if_pos ⟨hp, ht⟩]
  · show (hexEncode _).length = 32
    rw [hexEncode_length, (trace.SpanContextFromContext ctx).traceID.size]
  · exact hexEncode_mem _

/-- Witness of C4 on the handler and span context of `TestOtelAttrs` (sampled flag false):
the encoder is handed the caller's attribute followed by the three trace attributes. -/
theorem Handle_appends_trace_attrs_witness :
    TestOtelAttrs.handler.opts.ProjectID ≠ ""
      ∧ (trace.SpanContextFromContext ⟨some TestOtelAttrs.spanContext⟩).HasTraceID = true
      ∧ GCPLogHandler.Handle keysEncoder TestOtelAttrs.handler
            ⟨some TestOtelAttrs.spanContext⟩ sampleRecord
          = .ok (some ("user,logging.googleapis.com/trace,logging.googleapis.com/spanId,"
              ++ "logging.googleapis.com/trace_sampled")) :=
  ⟨by decide, by decide,
    (Handle_appends_trace_attrs keysEncoder TestOtelAttrs.handler
      ⟨some TestOtelAttrs.spanContext⟩ sampleRecord (by decide) (by decide)).1.trans rfl⟩

/-- C5: if the configured project ID is empty, whatever the context carries, or the context
has no valid trace ID, `Handle` hands the encoder exactly the record it was given: no
attribute is added, so no trace key is introduced. -/
theorem Handle_adds_nothing {W : Type}
    (jsonHandle : slog.JSONHandler W → Context → slog.Record → EncodeResult)
    (h : GCPLogHandler W) (ctx : Context) (r : slog.Record)
    (hc : h.opts.ProjectID = "" ∨ (trace.SpanContextFromContext ctx).HasTraceID = false) :
    GCPLogHandler.Handle jsonHandle h ctx r = jsonHandle h.JSONHandler ctx r := by
  rw [Handle_eq, if_neg]
  rintro ⟨hp, ht⟩
  rcases hc with hc | hc
  · exact hp hc
  · rw [hc] at ht; cases ht

/-- Witness of C5 on the handler of `TestOtelWithoutProjectId` with an active trace: the
encoder is handed the caller's attribute alone. -/
theorem Handle_adds_nothing_witness :
    (TestOtelWithoutProjectId.handler.opts.ProjectID = ""
        ∨ (trace.SpanContextFromContext ⟨some TestOtelAttrs.spanContext⟩).HasTraceID = false)
      ∧ (trace.SpanContextFromContext ⟨some TestOtelAttrs.spanContext⟩).HasTraceID = true
      ∧ GCPLogHandler.Handle keysEncoder TestOtelWithoutProjectId.handler
            ⟨some TestOtelAttrs.spanContext⟩ sampleRecord
          = .ok (some "user") :=
  ⟨Or.inl (by decide), by decide,
    (Handle_adds_nothing keysEncoder TestOtelWithoutProjectId.handler
      ⟨some TestOtelAttrs.spanContext⟩ sampleRecord (Or.inl (by decide))).trans rfl⟩

/-- C9: for every project ID and every context, the result of `Handle` is exactly the result
of the encoder's `Handle` on the record with its attributes kept and possibly followed by
appended ones: it is a given error exactly when the encoder's result is that error, and no
error exactly when the encoder reports none. -/
theorem Handle_returns_encoder_result {W : Type}
    (jsonHandle : slog.JSONHandler W → Context → slog.Record → EncodeResult)
    (h : GCPLogHandler W) (ctx : Context) (r : slog.Record) :
    ∃ extra : List slog.Attr,
      GCPLogHandler.Handle jsonHandle h ctx r
          = jsonHandle h.JSONHandler ctx { r with attrs := r.attrs ++ extra }
      ∧ (∀ e : String, GCPLogHandler.Handle jsonHandle h ctx r = .ok (some e)
          ↔ jsonHandle h.JSONHandler ctx { r with attrs := r.attrs ++ extra } = .ok (some e))
      ∧ (GCPLogHandler.Handle jsonHandle h ctx r = .ok none
          ↔ jsonHandle h.JSONHandler ctx { r with attrs := r.attrs ++ extra } = .ok none)
      ∧ (∀ p : Panic, GCPLogHandler.Handle jsonHandle h ctx r = .error p
          ↔ jsonHandle h.JSONHandler ctx { r with attrs := r.attrs ++ extra } = .error p) := by
  have key : ∃ extra : List slog.Attr, GCPLogHandler.Handle jsonHandle h ctx r
      = jsonHandle h.JSONHandler ctx { r with attrs := r.attrs ++ extra } := by
    by_cases hc : h.opts.ProjectID ≠ "" ∧ (trace.SpanContextFromContext ctx).HasTraceID = true
    · exact ⟨_, (Handle_eq jsonHandle h ctx r).trans (by rw [if_pos hc])⟩
    · refine ⟨[], (Handle_eq jsonHandle h ctx r).trans ?_⟩
      rw [if_neg hc, List.append_nil]
  obtain ⟨extra, he⟩ := key
  exact ⟨extra, he, fun e => by rw [he], by rw [he], fun p => by rw [he]⟩

end gcploghandler
